import Mathlib

/-
Verification of the @halix/action-sdk library (src/index.ts) against its
natural-language specification.

The TypeScript source is shallowly embedded in Lean:
 - JavaScript runtime values are modelled by the inductive type JSValue
   (numbers are modelled by Int: the SDK and all spec examples use integral
   numbers only; NaN / floating point, String wrapper objects, arrays and
   functions are outside the model),
 - JavaScript string primitives used by the source (split, replace with a
   string pattern, toLowerCase, template-literal interpolation) are modelled
   over List Char with JS semantics (String.prototype.replace with a string
   pattern replaces the FIRST occurrence only),
 - the module-scoped session variables (authToken, sandboxKey,
   serviceAddress, actionSubject, userContext, params, useBody) are gathered
   in the explicit state record SDKState,
 - HTTP side effects are represented by the list of requests a call issues,
   with the parsed response body passed in explicitly,
 - JSON.stringify / JSON.parse are modelled by executable functions
   jsonStringify / jsonParse over the integer fragment of JSON.
-/

namespace Halix

/-- Model of the JavaScript values the SDK manipulates. Plain data objects
are association lists of (property name, value) in insertion order. -/
inductive JSValue where
  | undefined
  | null
  | bool (b : Bool)
  | num (n : Int)
  | str (s : String)
  | obj (fields : List (String × JSValue))

/-- JavaScript truthiness: undefined, null, false, 0 and the empty string are
falsy; every object is truthy. (NaN is outside the integer number model.) -/
def jsTruthy : JSValue → Bool
  | .undefined => false
  | .null => false
  | .bool b => b
  | .num n => if n = 0 then false else true
  | .str s => if s.data = [] then false else true
  | .obj _ => true

/-- Model of the test (typeof v === 'string' || v instanceof String) from
compareValues; String wrapper objects are outside the model. -/
def isStringV : JSValue → Bool
  | .str _ => true
  | _ => false

/-- Contents of a string value; models the TypeScript <string> cast (only
applied under an isStringV guard). -/
def strContents : JSValue → String
  | .str s => s
  | _ => ""

/-- Property lookup in an association-list object; absent keys give
undefined, as in JavaScript. -/
def lookupField : List (String × JSValue) → String → JSValue
  | [], _ => .undefined
  | (k, v) :: rest, key => if k = key then v else lookupField rest key

/-- Model of the JavaScript property access value[key] as used by the SDK on
plain data objects. On truthy non-objects (numbers, booleans, nonempty
strings) the SDK never reads a meaningful property, so the model returns
undefined there (string .length / index properties are outside the model). -/
def jsIndex : JSValue → String → JSValue
  | .obj fields, key => lookupField fields key
  | _, _ => .undefined

/-- Whether an object value has an own property with the given name
(presence, as opposed to truthiness of the stored value). -/
def hasField : JSValue → String → Bool
  | .obj fields, key => fields.any (fun f => f.1 = key)
  | _, _ => false

/-- Split of a character list at every occurrence of a separator character;
models String.prototype.split with a one-character separator (an input with
no separator yields a single component, an empty input yields [[]]). -/
def splitCharList (sep : Char) : List Char → List (List Char)
  | [] => [[]]
  | c :: cs =>
    match splitCharList sep cs with
    | [] => [[]]
    | r :: rs => if c = sep then [] :: r :: rs else (c :: r) :: rs

/-- String.prototype.split with a one-character separator. -/
def jsSplit (sep : Char) (s : String) : List String :=
  (splitCharList sep s.toList).map String.mk

/-- Replacement of the first occurrence of a pattern in a character list;
models String.prototype.replace with a string (non-regexp) pattern, which
replaces only the first occurrence. -/
def replaceFirstList (pat repl : List Char) : List Char → List Char
  | [] => if pat = [] then repl else []
  | c :: cs =>
    if pat.isPrefixOf (c :: cs) then repl ++ (c :: cs).drop pat.length
    else c :: replaceFirstList pat repl cs

/-- String.prototype.replace with a string pattern (first occurrence only). -/
def jsReplaceFirst (s pat repl : String) : String :=
  String.mk (replaceFirstList pat.toList repl.toList s.toList)

/-- Decimal digit character for a digit value below 10. -/
def digitChar (n : Nat) : Char := Char.ofNat (48 + n)

/-- Decimal digits of a natural number, most significant first; fuel-indexed
so that the definition is structurally recursive (any fuel above the number
itself is enough). -/
def natDigitsAux : Nat → Nat → List Char
  | 0, _ => []
  | fuel + 1, n =>
    if n < 10 then [digitChar n]
    else natDigitsAux fuel (n / 10) ++ [digitChar (n % 10)]

/-- Decimal digits of a natural number, most significant first. -/
def natDigits (n : Nat) : List Char := natDigitsAux (n + 1) n

/-- Decimal character representation of an integer, as JavaScript prints
integral numbers. -/
def intChars (n : Int) : List Char :=
  if n < 0 then '-' :: natDigits n.natAbs else natDigits n.toNat

/-- JavaScript string conversion (template-literal interpolation) for the
modelled values; plain objects stringify to [object Object]. -/
def jsToString : JSValue → String
  | .undefined => "undefined"
  | .null => "null"
  | .bool b => if b then "true" else "false"
  | .num n => String.mk (intChars n)
  | .str s => s
  | .obj _ => "[object Object]"

/-- Whitespace characters recognised when a string is coerced to a number. -/
def isWsChar (c : Char) : Bool :=
  c = ' ' || c = '\t' || c = '\n' || c = '\x0d'

/-- Decimal digit test. -/
def isDigitChar (c : Char) : Bool := 48 ≤ c.toNat && c.toNat ≤ 57

/-- Numeric value of a list of decimal digit characters. -/
def digitsVal (l : List Char) : Nat :=
  l.foldl (fun a c => 10 * a + (c.toNat - 48)) 0

/-- JavaScript ToNumber on strings, restricted to the integer fragment of
the model: a trimmed empty string is 0, an optionally signed nonempty digit
string is its value, anything else is NaN (returned as none). -/
def strToNumber (s : String) : Option Int :=
  let t := ((s.toList.dropWhile isWsChar).reverse.dropWhile isWsChar).reverse
  match t with
  | [] => some 0
  | '-' :: ds => if ds ≠ [] ∧ ds.all isDigitChar then some (-(digitsVal ds : Int)) else none
  | '+' :: ds => if ds ≠ [] ∧ ds.all isDigitChar then some ((digitsVal ds : Int)) else none
  | ds => if ds.all isDigitChar then some ((digitsVal ds : Int)) else none

/-- JavaScript ToPrimitive with hint number for the modelled values: plain
objects convert via toString to [object Object]; everything else is already
primitive. -/
def toPrimitive : JSValue → JSValue
  | .obj _ => .str "[object Object]"
  | v => v

/-- JavaScript ToNumber on primitives (none models NaN). -/
def toNumber : JSValue → Option Int
  | .undefined => none
  | .null => some 0
  | .bool b => some (if b then 1 else 0)
  | .num n => some n
  | .str s => strToNumber s
  | .obj _ => none

/-- Lexicographic code-unit comparison of character lists (the abstract
relational comparison on two strings). -/
def charListLt : List Char → List Char → Bool
  | [], [] => false
  | [], _ :: _ => true
  | _ :: _, [] => false
  | a :: as, b :: bs =>
    if a.toNat < b.toNat then true
    else if b.toNat < a.toNat then false
    else charListLt as bs

/-- JavaScript abstract relational comparison a < b: both operands to
primitives; two strings compare lexicographically, otherwise both coerce to
numbers and any NaN makes the comparison false. -/
def jsLt (a b : JSValue) : Bool :=
  match toPrimitive a, toPrimitive b with
  | .str sa, .str sb => charListLt sa.toList sb.toList
  | pa, pb =>
    match toNumber pa, toNumber pb with
    | some x, some y => if x < y then true else false
    | _, _ => false

/-- JavaScript a > b is the relational comparison b < a. -/
def jsGt (a b : JSValue) : Bool := jsLt b a

/-- The default-ordering arm of compareValues: strict < and > probes with
the sign flipped when descending, 0 when neither strict order holds. -/
def relationalCompare (valueA valueB : JSValue) (descending : Bool) : Int :=
  if jsLt valueA valueB then (if descending then 1 else -1)
  else if jsGt valueA valueB then (if descending then -1 else 1)
  else 0

/-- Model of a.toLowerCase().localeCompare(b.toLowerCase()) normalised to
-1/0/1; collation is modelled as code-unit order of the lowercased forms. -/
def localeCompareLower (a b : String) : Int :=
  let la := a.toList.map Char.toLower
  let lb := b.toList.map Char.toLower
  if charListLt la lb then -1 else if charListLt lb la then 1 else 0

/-- compareValues from src/index.ts: case-insensitive string branch when the
first value is string-typed and the flag is set (with the falsy-operand
special cases), default relational ordering otherwise. One caveat: in the
truthy-truthy arm the source calls (<string>valueB).toLowerCase() without
checking that valueB is a string, so a truthy NON-string second value raises
TypeError there at run time; this total model returns the value obtained by
coercing through strContents instead, and compareValuesThrows below
characterizes exactly the raising inputs — every sorting theorem that could
reach this arm carries a compareValuesThrows = false hypothesis. -/
def compareValues (valueA valueB : JSValue) (descending caseInsensitive : Bool) : Int :=
  if caseInsensitive && isStringV valueA then
    if jsTruthy valueA && jsTruthy valueB then
      let comp := localeCompareLower (strContents valueA) (strContents valueB)
      if descending then comp * (-1) else comp
    else if jsTruthy valueA && !(jsTruthy valueB) then -1
    else if !(jsTruthy valueA) && jsTruthy valueB then 1
    else 0
  else relationalCompare valueA valueB descending

/-- The inputs on which the source compareValues raises TypeError: the
case-insensitive branch is chosen (flag set, first value string-typed), both
values are truthy, and the second value is not a string, so its toLowerCase
call fails (valueB.toLowerCase is not a function). -/
def compareValuesThrows (valueA valueB : JSValue) (caseInsensitive : Bool) : Bool :=
  caseInsensitive && isStringV valueA && jsTruthy valueA && jsTruthy valueB
    && !(isStringV valueB)

/-- One step of the attribute path walk in getValueFromObject: on a truthy
current value, a colon-qualified segment descends into the key field (second
colon component) with the first occurrence of "Key" removed, a plain segment
descends into the field it names; on a falsy current value the step is a
no-op. -/
def getValueStep (value : JSValue) (component : String) : JSValue :=
  if jsTruthy value then
    let compSplit := jsSplit ':' component
    if compSplit.length > 1 then
      jsIndex value (jsReplaceFirst (compSplit.getD 1 "") "Key" "")
    else jsIndex value component
  else value

/-- getValueFromObject from src/index.ts: split the attribute path on dots
and walk the components left to right (the source parameter is named
attribute, a keyword in Lean). -/
def getValueFromObject (object : JSValue) (attributePath : String) : JSValue :=
  (jsSplit '.' attributePath).foldl getValueStep object

/-- Spec-described key-field rule, modelled from the spec words: strip the
TRAILING literal substring "Key" from the key-field portion. Kept separate
from the source rule (jsReplaceFirst _ "Key" "") for comparison. -/
def specStripTrailingKey (s : String) : String :=
  if ("Key".toList).isSuffixOf s.toList then
    String.mk (s.toList.take (s.toList.length - 3))
  else s

/-- SortField from src/index.ts; the optional flags are Option Bool, with
none modelling an absent (undefined) property. -/
structure SortField where
  attributeId : String
  descending : Option Bool
  caseInsensitive : Option Bool
  autoSequence : Option Bool

/-- The JavaScript double-negation !!x applied to an optional boolean flag:
undefined and false give false, true gives true. -/
def doubleBang (o : Option Bool) : Bool := o.getD false

/-- The comparator closure built by sortObjectArray: resolve both values for
each sort field in order and return the first non-zero comparison (0 when
every field compares equal or the field list is empty). -/
def sortComparator (sort : List SortField) (a b : JSValue) : Int :=
  match sort with
  | [] => 0
  | s :: rest =>
    let comparison := compareValues (getValueFromObject a s.attributeId)
      (getValueFromObject b s.attributeId) (doubleBang s.descending) (doubleBang s.caseInsensitive)
    if comparison ≠ 0 then comparison else sortComparator rest a b

/-- The inputs on which evaluating the comparator closure raises TypeError:
walking the sort fields in order, some field reaches the compareValuesThrows
inputs before an earlier field has already broken the loop with a non-zero
comparison. -/
def sortComparatorThrows (sort : List SortField) (a b : JSValue) : Bool :=
  match sort with
  | [] => false
  | s :: rest =>
    let valueA := getValueFromObject a s.attributeId
    let valueB := getValueFromObject b s.attributeId
    if compareValuesThrows valueA valueB (doubleBang s.caseInsensitive) then true
    else if compareValues valueA valueB (doubleBang s.descending)
        (doubleBang s.caseInsensitive) ≠ 0 then false
    else sortComparatorThrows rest a b

/-- Whether an array element is defined (not the undefined value).
Array.prototype.sort moves undefined elements behind all defined ones
without ever passing them to the comparator. -/
def isDefined : JSValue → Bool
  | .undefined => false
  | _ => true

/-- sortObjectArray from src/index.ts. Array.prototype.sort (ECMAScript 2019
and later) hoists undefined elements to the end without comparator calls and
sorts the defined elements into a stable comparator-ordered permutation —
provided the comparator neither throws nor is inconsistent; the model: hoist
the undefined elements, insertion-sort the defined ones. On element pairs
where the source comparator throws (sortComparatorThrows) the source call
raises instead of returning, and for an inconsistent comparator ECMAScript
leaves the order implementation-defined, so this total function agrees with
the program exactly on the domain carved out by the hypotheses of the
sorting theorems below (throw-free, pairwise-consistent comparisons). -/
def sortObjectArray (array : List JSValue) (sort : List SortField) : List JSValue :=
  (@List.insertionSort JSValue (fun a b => sortComparator sort a b ≤ 0)
    (fun a b => Int.decLe (sortComparator sort a b) 0) (array.filter isDefined))
  ++ array.filter (fun v => !(isDefined v))

/-- String.mk of the character data of a string gives the string back. -/
theorem mk_data (s : String) : String.mk s.data = s := rfl

/-- Splitting a character list that does not contain the separator yields the
single component equal to the whole list. -/
theorem splitCharList_eq_single (sep : Char) (l : List Char) (h : sep ∉ l) :
    splitCharList sep l = [l] := by
  induction l with
  | nil => rfl
  | cons c cs ih =>
    rw [List.mem_cons, not_or] at h
    have hcs := ih h.2
    have hc : ¬(c = sep) := fun e => h.1 e.symm
    simp [splitCharList, hcs, hc]

/-- Splitting a string that does not contain the separator character yields
the string itself as the only component. -/
theorem jsSplit_eq_single (sep : Char) (s : String) (h : sep ∉ s.toList) :
    jsSplit sep s = [s] := by
  have h2 : splitCharList sep s.data = [s.data] := splitCharList_eq_single sep s.data h
  simp [jsSplit, String.toList, h2, mk_data]

/-- Claim C1 (amended): for compareValues with the caseInsensitive flag set and a
string-typed first value, when exactly one of the two values is falsy the falsy
one sorts after the truthy one regardless of the descending flag (the comparison
is 1 when the first value is the falsy one and -1 when the second value is), and
when both are falsy the result is 0; compareValues("", "x", false, true) returns
1, and compareValues("x", "", true, true) returns -1. -/
theorem compareValues_caseInsensitive_presence_rule :
    (∀ (a b : JSValue) (descending : Bool), isStringV a = true →
      jsTruthy a = false → jsTruthy b = true → compareValues a b descending true = 1) ∧
    (∀ (a b : JSValue) (descending : Bool), isStringV a = true →
      jsTruthy a = true → jsTruthy b = false → compareValues a b descending true = -1) ∧
    (∀ (a b : JSValue) (descending : Bool), isStringV a = true →
      jsTruthy a = false → jsTruthy b = false → compareValues a b descending true = 0) ∧
    compareValues (.str "") (.str "x") false true = 1 ∧
    compareValues (.str "x") (.str "") true true = -1 := by
  refine ⟨?_, ?_, ?_, rfl, rfl⟩ <;> intro a b descending hs ha hb <;>
    simp [compareValues, hs, ha, hb]

/-- Witness for the presence rule of compareValues at concrete inputs. -/
theorem compareValues_caseInsensitive_presence_rule_witness :
    compareValues (.str "") (.str "x") true true = 1 ∧
    compareValues (.str "hello") JSValue.null false true = -1 ∧
    compareValues (.str "") (.num 0) true true = 0 :=
  ⟨compareValues_caseInsensitive_presence_rule.1 _ _ true rfl rfl rfl,
   compareValues_caseInsensitive_presence_rule.2.1 _ _ false rfl rfl rfl,
   compareValues_caseInsensitive_presence_rule.2.2.1 _ _ true rfl rfl rfl⟩

/-- Claim C1 counterexample: compareValues("x", "", true, true) evaluates to -1,
not 1 as the claim states (the truthy first value still sorts before the falsy
second one; the descending flag does not invert the presence rule, but neither
does it turn the comparison positive). -/
theorem compareValues_presence_concrete_counterexample :
    compareValues (.str "x") (.str "") true true = -1 ∧ (-1 : Int) ≠ 1 :=
  ⟨rfl, by decide⟩

/-- Claim C10: compareValues selects its branch from the type of its first
argument only: whenever the first argument is not a string the default
relational-ordering arm runs, even with caseInsensitive set and a string second
argument; concretely compareValues(0, "x", false, true) = 0 while
compareValues("x", 0, false, true) = -1, so the comparator is not
argument-antisymmetric. -/
theorem compareValues_first_arg_dispatch_not_antisymmetric :
    (∀ (a b : JSValue) (descending caseInsensitive : Bool), isStringV a = false →
      compareValues a b descending caseInsensitive = relationalCompare a b descending) ∧
    compareValues (.num 0) (.str "x") false true = 0 ∧
    compareValues (.str "x") (.num 0) false true = -1 ∧
    compareValues (.num 0) (.str "x") false true ≠
      -(compareValues (.str "x") (.num 0) false true) := by
  refine ⟨?_, rfl, rfl, by decide⟩
  intro a b descending caseInsensitive hs
  simp [compareValues, hs]

/-- Witness for the first-argument dispatch of compareValues at a concrete
non-string first argument. -/
theorem compareValues_first_arg_dispatch_witness :
    compareValues JSValue.null (.str "q") true true =
      relationalCompare JSValue.null (.str "q") true :=
  compareValues_first_arg_dispatch_not_antisymmetric.1 _ _ true true rfl

/-- Claim C4: getValueFromObject walks the dot segments left to right; on a
truthy value a colon-free segment descends into the field it names; a falsy
value at any point short-circuits the remaining segments and is returned as the
final result (no exception is modelled or needed); and the three concrete
examples evaluate as stated. -/
theorem getValueFromObject_walk_spec :
    (∀ (v : JSValue) (comp : String), ':' ∉ comp.toList → jsTruthy v = true →
      getValueStep v comp = jsIndex v comp) ∧
    (∀ (v : JSValue) (comps : List String), jsTruthy v = false →
      comps.foldl getValueStep v = v) ∧
    (∀ (v : JSValue) (attributePath : String), jsTruthy v = false →
      getValueFromObject v attributePath = v) ∧
    getValueFromObject (.obj [("a", .obj [("b", .num 5)])]) "a.b" = .num 5 ∧
    getValueFromObject (.obj [("a", .obj [("b", .num 5)])]) "a.c" = .undefined ∧
    getValueFromObject (.obj [("a", .null)]) "a.b.c" = .null := by
  have hstep : ∀ (v : JSValue) (comp : String), ':' ∉ comp.toList → jsTruthy v = true →
      getValueStep v comp = jsIndex v comp := by
    intro v comp hc ht
    simp [getValueStep, ht, jsSplit_eq_single ':' comp hc]
  have hfold : ∀ (v : JSValue) (comps : List String), jsTruthy v = false →
      comps.foldl getValueStep v = v := by
    intro v comps hv
    induction comps with
    | nil => rfl
    | cons c cs ih => simp [List.foldl_cons, getValueStep, hv, ih]
  exact ⟨hstep, hfold, fun v attributePath hv => hfold v _ hv, rfl, rfl, rfl⟩

/-- Witness for the walk of getValueFromObject at concrete inputs. -/
theorem getValueFromObject_walk_spec_witness :
    getValueStep (.obj [("q", .num 3)]) "q" = jsIndex (.obj [("q", .num 3)]) "q" ∧
    getValueFromObject JSValue.null "a.b" = JSValue.null :=
  ⟨getValueFromObject_walk_spec.1 _ "q" (by decide) rfl,
   getValueFromObject_walk_spec.2.2.1 _ "a.b" rfl⟩

/-- Claim C2 (amended): at a colon-qualified path segment getValueFromObject
splits the segment on ':' and descends into the field named by the second
component with the FIRST occurrence of the literal substring "Key" removed
(String.prototype.replace with a string pattern replaces the first occurrence;
for conventional key fields whose only occurrence of "Key" is the trailing
suffix this coincides with stripping the suffix); in particular for object
(ownerAccountMember holding (name "X")) and path
"accountMember:ownerAccountMemberKey" it returns the nested object. -/
theorem getValueFromObject_colon_segment :
    (∀ (v : JSValue) (comp : String), jsTruthy v = true → '.' ∉ comp.toList →
      1 < (jsSplit ':' comp).length →
      getValueFromObject v comp =
        jsIndex v (jsReplaceFirst ((jsSplit ':' comp).getD 1 "") "Key" "")) ∧
    getValueFromObject (.obj [("ownerAccountMember", .obj [("name", .str "X")])])
      "accountMember:ownerAccountMemberKey" = .obj [("name", .str "X")] := by
  refine ⟨?_, rfl⟩
  intro v comp ht hd hlen
  have h1 : jsSplit '.' comp = [comp] := jsSplit_eq_single '.' comp hd
  have h2 : getValueFromObject v comp = getValueStep v comp := by
    simp [getValueFromObject, h1]
  rw [h2]
  simp [getValueStep, ht, hlen]

/-- Witness for the colon-segment rule of getValueFromObject at the concrete
relationship path from the spec. -/
theorem getValueFromObject_colon_segment_witness :
    getValueFromObject (.obj [("ownerAccountMember", .obj [("name", .str "X")])])
      "accountMember:ownerAccountMemberKey" =
    jsIndex (.obj [("ownerAccountMember", .obj [("name", .str "X")])])
      (jsReplaceFirst "ownerAccountMemberKey" "Key" "") :=
  getValueFromObject_colon_segment.1 _ "accountMember:ownerAccountMemberKey" rfl
    (by decide) (by decide)

/-- Claim C2 counterexample: the code removes the FIRST occurrence of "Key" from
the key-field portion, not the trailing one. For object with fields "ab" (7) and
"aKeyb" (9) and path "m:aKeyb", the code descends into field "ab" and returns 7,
while the spec-described rule (strip the trailing "Key") names field "aKeyb"
(no trailing suffix to strip), which holds 9. -/
theorem getValueFromObject_colon_segment_counterexample :
    getValueFromObject (.obj [("ab", .num 7), ("aKeyb", .num 9)]) "m:aKeyb" = .num 7 ∧
    specStripTrailingKey "aKeyb" = "aKeyb" ∧
    jsIndex (.obj [("ab", .num 7), ("aKeyb", .num 9)]) (specStripTrailingKey "aKeyb") = .num 9 ∧
    JSValue.num 7 ≠ JSValue.num 9 :=
  ⟨rfl, rfl, rfl, by simp⟩

/-- Splitting a list at a predicate and reassembling the two parts yields a
permutation of the list. -/
theorem filter_split_perm (l : List JSValue) :
    ((l.filter isDefined) ++ l.filter (fun v => !(isDefined v))).Perm l := by
  induction l with
  | nil => rfl
  | cons c cs ih =>
    rcases Bool.eq_false_or_eq_true (isDefined c) with h | h
    · have e1 : (c :: cs).filter isDefined = c :: cs.filter isDefined := by
        simp [List.filter_cons, h]
      have e2 : (c :: cs).filter (fun v => !(isDefined v)) =
          cs.filter (fun v => !(isDefined v)) := by
        simp [List.filter_cons, h]
      rw [e1, e2]
      exact ih.cons c
    · have e1 : (c :: cs).filter isDefined = cs.filter isDefined := by
        simp [List.filter_cons, h]
      have e2 : (c :: cs).filter (fun v => !(isDefined v)) =
          c :: cs.filter (fun v => !(isDefined v)) := by
        simp [List.filter_cons, h]
      rw [e1, e2]
      exact List.perm_middle.trans (ih.cons c)

/-- Claim C3 counterexample: the sorting claim is not universal on the code.
For the array elements (a: "x") and (a: 5) under a caseInsensitive sort field
the comparator reaches compareValues("x", 5, false, true), whose
truthy-truthy arm calls (5).toLowerCase() and raises TypeError, so the source
sort call throws instead of returning the comparator-ordered array. Moreover
the comparator is inconsistent on reachable values — comparing (a: 0) with
(a: "x") gives 0 one way and -1 the other, violating antisymmetry — and
ECMAScript then leaves the sort order implementation-defined. -/
theorem sortObjectArray_throw_counterexample :
    compareValuesThrows (.str "x") (.num 5) true = true ∧
    sortComparatorThrows [⟨"a", none, some true, none⟩]
      (.obj [("a", .str "x")]) (.obj [("a", .num 5)]) = true ∧
    sortComparator [⟨"a", none, some true, none⟩]
      (.obj [("a", .num 0)]) (.obj [("a", .str "x")]) = 0 ∧
    sortComparator [⟨"a", none, some true, none⟩]
      (.obj [("a", .str "x")]) (.obj [("a", .num 0)]) = -1 :=
  ⟨rfl, rfl, rfl, rfl⟩

/-- Claim C3 (amended): sortObjectArray orders by the lexicographic
first-non-zero composition (sortComparator) of per-field compareValues
comparisons over getValueFromObject-resolved values, on the domain where
ECMAScript pins Array.prototype.sort down. When no comparison between
defined elements raises, the result is a permutation of the input (the
value-level content of the in-place reordering); a two-element array of
defined elements whose comparisons do not raise and on which the comparator
is consistent (antisymmetric) is ordered exactly by the comparator sign; an
undefined element is hoisted behind a defined one without consulting the
comparator; and the two-field example sorts as stated. -/
theorem sortObjectArray_spec :
    (∀ (l : List JSValue) (sort : List SortField),
      (∀ a ∈ l, ∀ b ∈ l, isDefined a = true → isDefined b = true →
        sortComparatorThrows sort a b = false) →
      (sortObjectArray l sort).Perm l) ∧
    (∀ (a b : JSValue) (sort : List SortField),
      isDefined a = true → isDefined b = true →
      sortComparatorThrows sort a b = false → sortComparatorThrows sort b a = false →
      sortComparator sort b a = -(sortComparator sort a b) →
      sortObjectArray [a, b] sort = if sortComparator sort a b ≤ 0 then [a, b] else [b, a]) ∧
    (∀ (a : JSValue) (sort : List SortField), isDefined a = true →
      sortObjectArray [.undefined, a] sort = [a, .undefined]) ∧
    sortObjectArray [.obj [("a", .num 1), ("b", .num 2)], .obj [("a", .num 1), ("b", .num 1)]]
      [⟨"a", none, none, none⟩, ⟨"b", none, none, none⟩] =
    [.obj [("a", .num 1), ("b", .num 1)], .obj [("a", .num 1), ("b", .num 2)]] := by
  refine ⟨?_, ?_, ?_, rfl⟩
  · intro l sort _
    exact ((List.perm_insertionSort _ _).append_right _).trans (filter_split_perm l)
  · intro a b sort ha hb _ _ _
    have hfil : ([a, b].filter isDefined) = [a, b] := by
      simp [List.filter_cons, ha, hb]
    have hfil2 : ([a, b].filter (fun v => !(isDefined v))) = [] := by
      simp [List.filter_cons, ha, hb]
    by_cases h : sortComparator sort a b ≤ 0 <;>
      simp [sortObjectArray, hfil, hfil2, List.insertionSort, List.orderedInsert, h]
  · intro a sort ha
    have hu : isDefined JSValue.undefined = false := rfl
    have hfil : ([JSValue.undefined, a].filter isDefined) = [a] := by
      simp [List.filter_cons, ha, hu]
    have hfil2 : ([JSValue.undefined, a].filter (fun v => !(isDefined v))) = [.undefined] := by
      simp [List.filter_cons, ha, hu]
    simp [sortObjectArray, hfil, hfil2, List.insertionSort, List.orderedInsert]

/-- Witness for the sorting theorem at concrete throw-free, consistent
inputs: a sorted pair, a hoisted undefined element, and a permutation. -/
theorem sortObjectArray_spec_witness :
    sortObjectArray [.obj [("a", .num 2)], .obj [("a", .num 1)]]
      [⟨"a", none, none, none⟩] =
      [.obj [("a", .num 1)], .obj [("a", .num 2)]] ∧
    sortObjectArray [.undefined, .obj [("a", .num 2)]] [⟨"a", none, none, none⟩] =
      [.obj [("a", .num 2)], .undefined] ∧
    (sortObjectArray [.obj [("a", .num 2)], .obj [("a", .num 1)]]
      [⟨"a", none, none, none⟩]).Perm
      [.obj [("a", .num 2)], .obj [("a", .num 1)]] :=
  ⟨(sortObjectArray_spec.2.1 (.obj [("a", .num 2)]) (.obj [("a", .num 1)])
      [⟨"a", none, none, none⟩] rfl rfl rfl rfl (by decide)).trans rfl,
   sortObjectArray_spec.2.2.1 (.obj [("a", .num 2)]) [⟨"a", none, none, none⟩] rfl,
   sortObjectArray_spec.1 [.obj [("a", .num 2)], .obj [("a", .num 1)]]
      [⟨"a", none, none, none⟩] (by decide)⟩

/-- The module-scoped session variables of the SDK (the exported let bindings
authToken, sandboxKey, serviceAddress, actionSubject, userContext, params and
useBody) gathered in an explicit state record. The six core fields hold
whatever JavaScript values initialization assigned (undefined before any
assignment); useBody is a boolean flag (its uninitialized undefined start is
modelled by the equi-falsy false). -/
structure SDKState where
  authToken : JSValue
  sandboxKey : JSValue
  serviceAddress : JSValue
  actionSubject : JSValue
  userContext : JSValue
  params : JSValue
  useBody : Bool

/-- State at module load: the six let-declared fields are undefined and the
useBody flag is unset. -/
def initialState : SDKState :=
  { authToken := .undefined, sandboxKey := .undefined, serviceAddress := .undefined,
    actionSubject := .undefined, userContext := .undefined, params := .undefined,
    useBody := false }

/-- initialize from src/index.ts (the source name is a Lean keyword): choose
the body object (event.body when truthy, the event itself otherwise), set
useBody when event.body is truthy, and when the chosen body is truthy
destructure the six session fields from it (absent properties destructure to
undefined); a falsy body leaves the six fields untouched. -/
def initializeSDK (st : SDKState) (event : JSValue) : SDKState :=
  let hasBody := jsTruthy (jsIndex event "body")
  let body := if hasBody then jsIndex event "body" else event
  let st1 := if hasBody then { st with useBody := true } else st
  if jsTruthy body then
    { st1 with
      authToken := jsIndex body "authToken"
      sandboxKey := jsIndex body "sandboxKey"
      serviceAddress := jsIndex body "serviceAddress"
      actionSubject := jsIndex body "actionSubject"
      userContext := jsIndex body "userContext"
      params := jsIndex body "params" }
  else st1

/-- SaveOptions from src/index.ts; the optional bypassValidation flag is
Option Bool with none modelling an absent (undefined) property. -/
structure SaveOptions where
  bypassValidation : Option Bool

/-- An HTTP request issued by the SDK: method, full URL, headers, and the
serialized request body (none for GET requests). -/
structure HttpRequest where
  method : String
  url : String
  headers : List (String × String)
  body : Option String

/-- saveRelatedObject from src/index.ts: build the related-object URL from the
session state and path segments, append the bypassValidation query flag when
the option is truthy, and issue one POST carrying the object payload and the
Bearer authorization header. The HTTP exchange is modelled explicitly: the
first component lists the requests the call issues, and the parsed response
body (the data of the axios response, supplied as responseData) is what the
call returns. -/
def saveRelatedObject (st : SDKState) (parentElementId parentKey elementId : String)
    (objectToSave : String) (opts : Option SaveOptions) (responseData : JSValue) :
    List HttpRequest × JSValue :=
  let url0 := jsToString st.serviceAddress ++ "/schema/sandboxes/" ++ jsToString st.sandboxKey
    ++ "/" ++ parentElementId ++ "/" ++ parentKey ++ "/" ++ elementId
  let url := if doubleBang (opts.bind (fun o => o.bypassValidation)) then
    url0 ++ "?bypassValidation=true" else url0
  ([{ method := "POST", url := url,
      headers := [("Authorization", "Bearer " ++ jsToString st.authToken)],
      body := some objectToSave }], responseData)

/-- Claim C7 counterexample: the code tests TRUTHINESS of event.body, not mere
presence. For the event with fields body = "" and authToken = "T" the body
field is present, yet initialize reads the top-level event (authToken becomes
"T") and leaves the useBody flag unset. -/
theorem initializeSDK_body_presence_counterexample :
    hasField (.obj [("body", .str ""), ("authToken", .str "T")]) "body" = true ∧
    (initializeSDK initialState (.obj [("body", .str ""), ("authToken", .str "T")])).useBody
      = false ∧
    (initializeSDK initialState (.obj [("body", .str ""), ("authToken", .str "T")])).authToken
      = .str "T" :=
  ⟨rfl, rfl, rfl⟩

/-- Claim C7 (amended): initialize populates the six session fields from
event.body when the body field is present and truthy — additionally setting
the envelope flag useBody — and from the top-level event otherwise; no error
is raised for missing fields, which are simply populated as undefined (an
empty event reproduces the all-undefined initial state). -/
theorem initializeSDK_spec :
    (∀ (st : SDKState) (event : JSValue), jsTruthy (jsIndex event "body") = true →
      initializeSDK st event =
        { authToken := jsIndex (jsIndex event "body") "authToken",
          sandboxKey := jsIndex (jsIndex event "body") "sandboxKey",
          serviceAddress := jsIndex (jsIndex event "body") "serviceAddress",
          actionSubject := jsIndex (jsIndex event "body") "actionSubject",
          userContext := jsIndex (jsIndex event "body") "userContext",
          params := jsIndex (jsIndex event "body") "params",
          useBody := true }) ∧
    (∀ (st : SDKState) (fields : List (String × JSValue)),
      jsTruthy (jsIndex (.obj fields) "body") = false →
      initializeSDK st (.obj fields) =
        { authToken := jsIndex (.obj fields) "authToken",
          sandboxKey := jsIndex (.obj fields) "sandboxKey",
          serviceAddress := jsIndex (.obj fields) "serviceAddress",
          actionSubject := jsIndex (.obj fields) "actionSubject",
          userContext := jsIndex (.obj fields) "userContext",
          params := jsIndex (.obj fields) "params",
          useBody := st.useBody }) ∧
    initializeSDK initialState (.obj []) = initialState := by
  refine ⟨?_, ?_, rfl⟩
  · intro st event h
    simp [initializeSDK, h]
  · intro st fields h
    have htr : jsTruthy (JSValue.obj fields) = true := rfl
    simp [initializeSDK, h, htr]

/-- Witness for initialize at a concrete body-wrapped and a concrete top-level
event. -/
theorem initializeSDK_spec_witness :
    initializeSDK initialState (.obj [("body", .obj [("authToken", .str "tok")])]) =
      { authToken := .str "tok", sandboxKey := .undefined, serviceAddress := .undefined,
        actionSubject := .undefined, userContext := .undefined, params := .undefined,
        useBody := true } ∧
    initializeSDK initialState (.obj [("authToken", .str "top")]) =
      { authToken := .str "top", sandboxKey := .undefined, serviceAddress := .undefined,
        actionSubject := .undefined, userContext := .undefined, params := .undefined,
        useBody := false } :=
  ⟨initializeSDK_spec.1 _ _ rfl, initializeSDK_spec.2.1 _ _ rfl⟩

/-- Claim C9: initialize only ever assigns true to the envelope flag: every
call either preserves the prior flag or sets it to true; for any object event
without a body field the flag retains its prior value while the six session
fields are reassigned from the event; re-initializing with a top-level event
after a body-wrapped event keeps the flag set. -/
theorem initializeSDK_useBody_monotone :
    (∀ (st : SDKState) (event : JSValue),
      (initializeSDK st event).useBody = st.useBody ∨
      (initializeSDK st event).useBody = true) ∧
    (∀ (st : SDKState) (fields : List (String × JSValue)),
      jsIndex (.obj fields) "body" = .undefined →
      (initializeSDK st (.obj fields)).useBody = st.useBody ∧
      (initializeSDK st (.obj fields)).authToken = jsIndex (.obj fields) "authToken" ∧
      (initializeSDK st (.obj fields)).sandboxKey = jsIndex (.obj fields) "sandboxKey" ∧
      (initializeSDK st (.obj fields)).serviceAddress = jsIndex (.obj fields) "serviceAddress" ∧
      (initializeSDK st (.obj fields)).actionSubject = jsIndex (.obj fields) "actionSubject" ∧
      (initializeSDK st (.obj fields)).userContext = jsIndex (.obj fields) "userContext" ∧
      (initializeSDK st (.obj fields)).params = jsIndex (.obj fields) "params") ∧
    (initializeSDK
      (initializeSDK initialState (.obj [("body", .obj [("authToken", .str "t1")])]))
      (.obj [("authToken", .str "t2")])).useBody = true := by
  refine ⟨?_, ?_, rfl⟩
  · intro st event
    rcases Bool.eq_false_or_eq_true (jsTruthy (jsIndex event "body")) with h | h <;>
      rcases Bool.eq_false_or_eq_true (jsTruthy event) with h2 | h2 <;>
      simp [initializeSDK, h, h2]
  · intro st fields h
    have h2 : jsTruthy (jsIndex (.obj fields) "body") = false := by rw [h]; rfl
    have htr : jsTruthy (JSValue.obj fields) = true := rfl
    simp [initializeSDK, h2, htr]

/-- Witness for the useBody frame of initialize at a concrete top-level event
with a previously set flag. -/
theorem initializeSDK_useBody_monotone_witness :
    (initializeSDK { initialState with useBody := true }
      (.obj [("authToken", .str "t2")])).useBody = true ∧
    (initializeSDK { initialState with useBody := true }
      (.obj [("authToken", .str "t2")])).authToken = .str "t2" :=
  ⟨((initializeSDK_useBody_monotone.2.1 { initialState with useBody := true }
      [("authToken", .str "t2")] rfl).1).trans rfl,
   (initializeSDK_useBody_monotone.2.1 { initialState with useBody := true }
      [("authToken", .str "t2")] rfl).2.1⟩

/-- Claim C8: saveRelatedObject issues exactly one POST request, to
serviceAddress/schema/sandboxes/sandboxKey/parentElementId/parentKey/elementId
with ?bypassValidation=true appended exactly when the bypassValidation option
is set, carrying the object payload as the request body and a Bearer authToken
Authorization header, and returns the parsed response body unchanged. -/
theorem saveRelatedObject_spec :
    ∀ (st : SDKState) (parentElementId parentKey elementId objectToSave : String)
      (opts : Option SaveOptions) (responseData : JSValue),
      (saveRelatedObject st parentElementId parentKey elementId objectToSave opts
        responseData).1 =
        [{ method := "POST",
           url := jsToString st.serviceAddress ++ "/schema/sandboxes/"
             ++ jsToString st.sandboxKey ++ "/" ++ parentElementId ++ "/" ++ parentKey
             ++ "/" ++ elementId
             ++ (if doubleBang (opts.bind (fun o => o.bypassValidation)) then
                  "?bypassValidation=true" else ""),
           headers := [("Authorization", "Bearer " ++ jsToString st.authToken)],
           body := some objectToSave }] ∧
      (saveRelatedObject st parentElementId parentKey elementId objectToSave opts
        responseData).2 = responseData ∧
      ((saveRelatedObject st parentElementId parentKey elementId objectToSave opts
        responseData).1.map (fun r => r.method)) = ["POST"] := by
  intro st parentElementId parentKey elementId objectToSave opts responseData
  refine ⟨?_, rfl, rfl⟩
  by_cases h : doubleBang (opts.bind (fun o => o.bypassValidation)) = true <;>
    simp [saveRelatedObject, h, String.append_empty]

/-- Hexadecimal digit character (lowercase, as JSON.stringify emits in
unicode escapes). -/
def hexDigitChar (n : Nat) : Char :=
  if n < 10 then Char.ofNat (48 + n) else Char.ofNat (87 + n)

/-- JSON.stringify escaping of one string character: quote and backslash are
escaped, the named control escapes are used for backspace, tab, newline,
form feed and carriage return, the remaining control characters get a
four-digit unicode escape, and every other character stands for itself. -/
def escChar (c : Char) : List Char :=
  if c = '"' then ['\\', '"']
  else if c = '\\' then ['\\', '\\']
  else if c = '\x08' then ['\\', 'b']
  else if c = '\t' then ['\\', 't']
  else if c = '\n' then ['\\', 'n']
  else if c = '\x0c' then ['\\', 'f']
  else if c = '\x0d' then ['\\', 'r']
  else if c.toNat < 32 then
    ['\\', 'u', '0', '0', hexDigitChar (c.toNat / 16), hexDigitChar (c.toNat % 16)]
  else [c]

/-- Escaped body of a JSON string literal. -/
def escBody : List Char → List Char
  | [] => []
  | c :: cs => escChar c ++ escBody cs

/-- JSON string literal: quote, escaped body, quote. -/
def strLitChars (s : String) : List Char := '"' :: (escBody s.toList ++ ['"'])

/-- Characters of the JSON literal null. -/
def nullChars : List Char := ['n', 'u', 'l', 'l']

/-- Characters of the JSON literal true. -/
def trueChars : List Char := ['t', 'r', 'u', 'e']

/-- Characters of the JSON literal false. -/
def falseChars : List Char := ['f', 'a', 'l', 's', 'e']

/-- Comma-join of already-encoded object entries. -/
def joinComma : List (List Char) → List Char
  | [] => []
  | [e] => e
  | e :: es => e ++ ',' :: joinComma es

mutual

/-- JSON.stringify at character level for the modelled values; the undefined
result of stringifying undefined is modelled as none. Plain objects serialize
their properties in insertion order. -/
def strValChars : JSValue → Option (List Char)
  | .undefined => none
  | .null => some nullChars
  | .bool true => some trueChars
  | .bool false => some falseChars
  | .num n => some (intChars n)
  | .str s => some (strLitChars s)
  | .obj fields => some ('\x7b' :: (joinComma (fieldEntries fields) ++ ['\x7d']))

/-- Encoded entries of an object: properties whose value stringifies to
undefined are dropped, as JSON.stringify does. -/
def fieldEntries : List (String × JSValue) → List (List Char)
  | [] => []
  | (k, v) :: rest =>
    match strValChars v with
    | none => fieldEntries rest
    | some sv => (strLitChars k ++ ':' :: sv) :: fieldEntries rest

end

/-- JSON.stringify (none models the undefined result on undefined input). -/
def jsonStringify (v : JSValue) : Option String := (strValChars v).map String.mk

mutual

/-- Whether a value contains no undefined anywhere (such values are exactly
the ones JSON serialization preserves). -/
def undefFree : JSValue → Bool
  | .undefined => false
  | .null => true
  | .bool _ => true
  | .num _ => true
  | .str _ => true
  | .obj fields => undefFreeFields fields

/-- undefFree over the property list of an object. -/
def undefFreeFields : List (String × JSValue) → Bool
  | [] => true
  | (_, v) :: rest => undefFree v && undefFreeFields rest

end

mutual

/-- Fuel sufficient for the parser on the encoding of a value. -/
def needVal : JSValue → Nat
  | .obj fields => needFields fields + 1
  | _ => 1

/-- Fuel sufficient for the parser on an encoded property list. -/
def needFields : List (String × JSValue) → Nat
  | [] => 1
  | (_, v) :: rest => needVal v + needFields rest + 1

end

/-- Value of a hexadecimal digit character. -/
def hexVal (c : Char) : Option Nat :=
  if 48 ≤ c.toNat ∧ c.toNat ≤ 57 then some (c.toNat - 48)
  else if 97 ≤ c.toNat ∧ c.toNat ≤ 102 then some (c.toNat - 87)
  else if 65 ≤ c.toNat ∧ c.toNat ≤ 70 then some (c.toNat - 55)
  else none

/-- Named JSON string escapes. -/
def unescChar (c : Char) : Option Char :=
  if c = '"' then some '"'
  else if c = '\\' then some '\\'
  else if c = '/' then some '/'
  else if c = 'b' then some '\x08'
  else if c = 't' then some '\t'
  else if c = 'n' then some '\n'
  else if c = 'f' then some '\x0c'
  else if c = 'r' then some '\x0d'
  else none

/-- Parser for the body of a JSON string literal (after the opening quote),
returning the decoded characters and the input after the closing quote. Raw
control characters are rejected as JSON.parse does; surrogate-pair
combination is outside the model (each unicode escape yields its code
point). -/
def parseStrChars : List Char → Option (List Char × List Char)
  | [] => none
  | c :: rest =>
    if c = '"' then some ([], rest)
    else if c = '\\' then
      match rest with
      | [] => none
      | e :: rest2 =>
        if e = 'u' then
          match rest2 with
          | h1 :: h2 :: h3 :: h4 :: rest3 =>
            match hexVal h1, hexVal h2, hexVal h3, hexVal h4 with
            | some a, some b, some c2, some d =>
              (parseStrChars rest3).map
                (fun p => (Char.ofNat (((a * 16 + b) * 16 + c2) * 16 + d) :: p.1, p.2))
            | _, _, _, _ => none
          | _ => none
        else
          match unescChar e with
          | none => none
          | some u => (parseStrChars rest2).map (fun p => (u :: p.1, p.2))
    else if c.toNat < 32 then none
    else (parseStrChars rest).map (fun p => (c :: p.1, p.2))

/-- Parser for a nonempty run of decimal digits and its numeric value. -/
def parseNatDigits (cs : List Char) : Option (Nat × List Char) :=
  if (cs.takeWhile isDigitChar) = [] then none
  else some (digitsVal (cs.takeWhile isDigitChar), cs.dropWhile isDigitChar)

/-- Parser for an optionally negated integer number token. -/
def parseNumber (cs : List Char) : Option (JSValue × List Char) :=
  if cs.take 1 = ['-'] then
    (parseNatDigits (cs.drop 1)).map (fun p => (.num (-(p.1 : Int)), p.2))
  else
    (parseNatDigits cs).map (fun p => (.num ((p.1 : Int)), p.2))

mutual

/-- Fuel-indexed parser for one JSON value over the modelled fragment
(integer numbers; no whitespace skipping, since stringify emits none and the
round-trip property only applies the parser to stringify output). -/
def parseVal : Nat → List Char → Option (JSValue × List Char)
  | 0, _ => none
  | fuel + 1, cs =>
    if cs.take 4 = nullChars then some (.null, cs.drop 4)
    else if cs.take 4 = trueChars then some (.bool true, cs.drop 4)
    else if cs.take 5 = falseChars then some (.bool false, cs.drop 5)
    else
      match cs with
      | [] => none
      | c :: rest =>
        if c = '"' then (parseStrChars rest).map (fun p => (.str (String.mk p.1), p.2))
        else if c = '\x7b' then
          if rest.take 1 = ['\x7d'] then some (.obj [], rest.drop 1)
          else (parseFields fuel rest).map (fun p => (.obj p.1, p.2))
        else parseNumber (c :: rest)

/-- Fuel-indexed parser for a nonempty property list including the closing
brace of the object. -/
def parseFields : Nat → List Char → Option (List (String × JSValue) × List Char)
  | 0, _ => none
  | fuel + 1, cs =>
    if cs.take 1 = ['"'] then
      match parseStrChars (cs.drop 1) with
      | none => none
      | some (k, rest2) =>
        if rest2.take 1 = [':'] then
          match parseVal fuel (rest2.drop 1) with
          | none => none
          | some (v, rest4) =>
            if rest4.take 1 = [','] then
              match parseFields fuel (rest4.drop 1) with
              | none => none
              | some (fs, r) => some ((String.mk k, v) :: fs, r)
            else if rest4.take 1 = ['\x7d'] then some ([(String.mk k, v)], rest4.drop 1)
            else none
        else none
    else none

end

/-- JSON.parse over the modelled fragment: parse one value with sufficient
fuel and require full consumption of the input. -/
def jsonParse (s : String) : Option JSValue :=
  match parseVal (s.length + 1) s.toList with
  | some (v, []) => some v
  | _ => none

/-- Condition on the input following an encoded value inside a larger
encoding: exhausted, or a separator comma, or a closing brace. -/
def delimOk : List Char → Bool
  | [] => true
  | c :: _ => c = ',' || c = '\x7d'

/-- Result of a response formatter: either the HTTP envelope (status code and
JSON body; the body is an optional string because JSON.stringify can yield
undefined) or the direct, unwrapped response value. -/
inductive PreparedResponse where
  | envelope (statusCode : Nat) (body : Option String)
  | direct (v : JSValue)

/-- prepareSuccessResponse from src/index.ts: wrap in a 200 envelope with the
JSON-serialized response when useBody is set, return the response unchanged
otherwise. -/
def prepareSuccessResponse (st : SDKState) (successResponse : JSValue) : PreparedResponse :=
  if st.useBody then .envelope 200 (jsonStringify successResponse)
  else .direct successResponse

/-- prepareErrorResponse from src/index.ts: wrap the serialized one-property
object (errorMessage) in a 400 envelope when useBody is set, return the
direct error object (written with errorMessage first, responseType "error"
second in the source literal) otherwise. -/
def prepareErrorResponse (st : SDKState) (errorMessage : String) : PreparedResponse :=
  if st.useBody then
    .envelope 400 (jsonStringify (.obj [("errorMessage", .str errorMessage)]))
  else .direct (.obj [("errorMessage", .str errorMessage), ("responseType", .str "error")])

/-- toNat of a decimal digit character. -/
theorem digitChar_toNat : ∀ n : Nat, n < 10 → (digitChar n).toNat = 48 + n := by decide

/-- digitChar produces digit characters. -/
theorem isDigitChar_digitChar : ∀ n : Nat, n < 10 → isDigitChar (digitChar n) = true := by
  decide

/-- digitsVal over a snoc appends one digit in base 10. -/
theorem digitsVal_append (l : List Char) (d : Char) :
    digitsVal (l ++ [d]) = 10 * digitsVal l + (d.toNat - 48) := by
  simp [digitsVal, List.foldl_append]

/-- With sufficient fuel, natDigitsAux yields a nonempty all-digit encoding
whose value is the encoded number. -/
theorem natDigitsAux_spec : ∀ (fuel n : Nat), n < fuel →
    natDigitsAux fuel n ≠ [] ∧ (∀ c ∈ natDigitsAux fuel n, isDigitChar c = true) ∧
    digitsVal (natDigitsAux fuel n) = n := by
  intro fuel
  induction fuel with
  | zero => intro n h; omega
  | succ f ih =>
    intro n h
    by_cases h10 : n < 10
    · refine ⟨by simp [natDigitsAux, h10], ?_, ?_⟩
      · intro c hc
        simp [natDigitsAux, h10] at hc
        rw [hc]
        exact isDigitChar_digitChar n h10
      · have hd := digitChar_toNat n h10
        simp [natDigitsAux, h10, digitsVal]
        omega
    · have hdiv : n / 10 < f := by
        have := Nat.div_lt_self (show 0 < n by omega) (show 1 < 10 by omega)
        omega
      obtain ⟨hne, hdig, hval⟩ := ih (n / 10) hdiv
      have hmod : n % 10 < 10 := Nat.mod_lt _ (by omega)
      have hshape : natDigitsAux (f + 1) n = natDigitsAux f (n / 10) ++ [digitChar (n % 10)] := by
        simp [natDigitsAux, h10]
      refine ⟨?_, ?_, ?_⟩
      · rw [hshape]; simp
      · intro c hc
        rw [hshape] at hc
        simp at hc
        rcases hc with hc | hc
        · exact hdig c hc
        · rw [hc]; exact isDigitChar_digitChar _ hmod
      · rw [hshape, digitsVal_append, hval, digitChar_toNat _ hmod]
        omega

/-- natDigits yields a nonempty all-digit encoding of its argument. -/
theorem natDigits_spec (n : Nat) :
    natDigits n ≠ [] ∧ (∀ c ∈ natDigits n, isDigitChar c = true) ∧
    digitsVal (natDigits n) = n :=
  natDigitsAux_spec (n + 1) n (Nat.lt_succ_self n)

/-- A list whose takeWhile is empty is left whole by dropWhile. -/
theorem dropWhile_eq_self_of_takeWhile_nil (p : Char → Bool) (l : List Char)
    (h : l.takeWhile p = []) : l.dropWhile p = l := by
  cases l with
  | nil => rfl
  | cons c cs =>
    by_cases hc : p c = true
    · simp [List.takeWhile_cons, hc] at h
    · simp [List.dropWhile_cons, hc]

/-- takeWhile and dropWhile across an append whose left part satisfies the
predicate everywhere and whose right part starts by failing it. -/
theorem takeWhile_append_drop_of_all (p : Char → Bool) (l rest : List Char)
    (hl : ∀ c ∈ l, p c = true) (hr : rest.takeWhile p = []) :
    (l ++ rest).takeWhile p = l ∧ (l ++ rest).dropWhile p = rest := by
  induction l with
  | nil => exact ⟨hr, dropWhile_eq_self_of_takeWhile_nil p rest hr⟩
  | cons c cs ih =>
    have hc : p c = true := hl c (List.mem_cons_self c cs)
    have ih2 := ih (fun d hd => hl d (List.mem_cons_of_mem c hd))
    simp [List.takeWhile_cons, List.dropWhile_cons, hc, ih2.1, ih2.2]

/-- The integer encoding starts with a digit or a minus sign. -/
theorem intChars_shape (n : Int) :
    ∃ c t, intChars n = c :: t ∧ (isDigitChar c = true ∨ c = '-') := by
  by_cases h : n < 0
  · exact ⟨'-', natDigits n.natAbs, by simp [intChars, h], Or.inr rfl⟩
  · obtain ⟨hne, hdig, _⟩ := natDigits_spec n.toNat
    cases he : natDigits n.toNat with
    | nil => exact absurd he hne
    | cons c t =>
      refine ⟨c, t, by simp [intChars, h, he],
        Or.inl (hdig c (by rw [he]; exact List.mem_cons_self c t))⟩

/-- The number parser inverts the integer encoding when the continuation does
not start with a digit. -/
theorem parseNumber_intChars (n : Int) (rest : List Char)
    (hr : rest.takeWhile isDigitChar = []) :
    parseNumber (intChars n ++ rest) = some (.num n, rest) := by
  by_cases h : n < 0
  · obtain ⟨hne, hdig, hval⟩ := natDigits_spec n.natAbs
    obtain ⟨ht, hd⟩ := takeWhile_append_drop_of_all isDigitChar (natDigits n.natAbs) rest hdig hr
    have hsh : intChars n ++ rest = '-' :: (natDigits n.natAbs ++ rest) := by
      simp [intChars, h]
    rw [hsh]
    simp only [parseNumber, parseNatDigits]
    rw [if_pos (show ('-' :: (natDigits n.natAbs ++ rest)).take 1 = ['-'] from rfl)]
    rw [show ('-' :: (natDigits n.natAbs ++ rest)).drop 1 = natDigits n.natAbs ++ rest from rfl]
    rw [ht, hd, if_neg hne, hval]
    show some (JSValue.num (-((n.natAbs : Int))), rest) = some (.num n, rest)
    rw [show -((n.natAbs : Int)) = n by omega]
  · obtain ⟨hne, hdig, hval⟩ := natDigits_spec n.toNat
    obtain ⟨ht, hd⟩ := takeWhile_append_drop_of_all isDigitChar (natDigits n.toNat) rest hdig hr
    have hsh : intChars n ++ rest = natDigits n.toNat ++ rest := by
      simp [intChars, h]
    rw [hsh]
    cases he : natDigits n.toNat with
    | nil => exact absurd he hne
    | cons c t =>
      rw [he] at ht hd hval
      have hdc : isDigitChar c = true := hdig c (by rw [he]; exact List.mem_cons_self c t)
      have hm : ¬(((c :: t) ++ rest).take 1 = ['-']) := by
        rw [show ((c :: t) ++ rest).take 1 = [c] from rfl]
        intro e
        have hce : c = '-' := (List.cons.inj e).1
        rw [hce] at hdc
        exact absurd hdc (by decide)
      simp only [parseNumber, parseNatDigits]
      rw [if_neg hm, ht, hd, if_neg (show ¬(c :: t = []) by simp), hval]
      show some (JSValue.num ((n.toNat : Int)), rest) = some (.num n, rest)
      rw [show ((n.toNat : Int)) = n by omega]

/-- hexVal inverts hexDigitChar on digit values. -/
theorem hexVal_hexDigitChar : ∀ m : Nat, m < 16 → hexVal (hexDigitChar m) = some m := by
  decide

/-- The string-body parser decodes one escaped character and continues with
the rest of the input. -/
theorem parseStrChars_escChar (c : Char) (tail : List Char) :
    parseStrChars (escChar c ++ tail) = (parseStrChars tail).map (fun p => (c :: p.1, p.2)) := by
  by_cases h1 : c = '"'
  · rw [h1, show escChar '"' ++ tail = '\\' :: '"' :: tail from rfl, parseStrChars.eq_def]
    rfl
  by_cases h2 : c = '\\'
  · rw [h2, show escChar '\\' ++ tail = '\\' :: '\\' :: tail from rfl, parseStrChars.eq_def]
    rfl
  by_cases h3 : c = '\x08'
  · rw [h3, show escChar '\x08' ++ tail = '\\' :: 'b' :: tail from rfl, parseStrChars.eq_def]
    rfl
  by_cases h4 : c = '\t'
  · rw [h4, show escChar '\t' ++ tail = '\\' :: 't' :: tail from rfl, parseStrChars.eq_def]
    rfl
  by_cases h5 : c = '\n'
  · rw [h5, show escChar '\n' ++ tail = '\\' :: 'n' :: tail from rfl, parseStrChars.eq_def]
    rfl
  by_cases h6 : c = '\x0c'
  · rw [h6, show escChar '\x0c' ++ tail = '\\' :: 'f' :: tail from rfl, parseStrChars.eq_def]
    rfl
  by_cases h7 : c = '\x0d'
  · rw [h7, show escChar '\x0d' ++ tail = '\\' :: 'r' :: tail from rfl, parseStrChars.eq_def]
    rfl
  by_cases h8 : c.toNat < 32
  · have hesc : escChar c =
        ['\\', 'u', '0', '0', hexDigitChar (c.toNat / 16), hexDigitChar (c.toNat % 16)] := by
      simp [escChar, h1, h2, h3, h4, h5, h6, h7, h8]
    have e1 : hexVal (hexDigitChar (c.toNat / 16)) = some (c.toNat / 16) :=
      hexVal_hexDigitChar _ (by omega)
    have e2 : hexVal (hexDigitChar (c.toNat % 16)) = some (c.toNat % 16) :=
      hexVal_hexDigitChar _ (by omega)
    have hc : Char.ofNat (((0 * 16 + 0) * 16 + c.toNat / 16) * 16 + c.toNat % 16) = c := by
      rw [show ((0 * 16 + 0) * 16 + c.toNat / 16) * 16 + c.toNat % 16 = c.toNat from by omega]
      exact Char.ofNat_toNat c
    rw [hesc, show ['\\', 'u', '0', '0', hexDigitChar (c.toNat / 16),
        hexDigitChar (c.toNat % 16)] ++ tail = '\\' :: 'u' :: '0' :: '0' ::
        hexDigitChar (c.toNat / 16) :: hexDigitChar (c.toNat % 16) :: tail from rfl,
      parseStrChars.eq_def]
    simp only [e1, e2]
    rw [show hexVal '0' = some 0 from rfl]
    show Option.map (fun p => (Char.ofNat (((0 * 16 + 0) * 16 + c.toNat / 16) * 16
      + c.toNat % 16) :: p.1, p.2)) (parseStrChars tail) =
      Option.map (fun p => (c :: p.1, p.2)) (parseStrChars tail)
    rw [hc]
  · have hesc : escChar c = [c] := by simp [escChar, h1, h2, h3, h4, h5, h6, h7, h8]
    rw [hesc, show [c] ++ tail = c :: tail from rfl, parseStrChars.eq_def]
    simp [h1, h2, h8]

/-- The string-body parser inverts the escaped encoding of a character list
followed by the closing quote. -/
theorem parseStrChars_escBody (l rest : List Char) :
    parseStrChars (escBody l ++ '"' :: rest) = some (l, rest) := by
  induction l with
  | nil =>
    rw [show escBody [] ++ '"' :: rest = '"' :: rest from rfl, parseStrChars.eq_def]
    rfl
  | cons c cs ih =>
    rw [show escBody (c :: cs) = escChar c ++ escBody cs from rfl, List.append_assoc,
      parseStrChars_escChar, ih]
    rfl

/-- The string-body parser inverts a full string literal minus its opening
quote, for any continuation. -/
theorem parseStrChars_strLit (s : String) (rest : List Char) :
    parseStrChars ((escBody s.toList ++ ['"']) ++ rest) = some (s.toList, rest) := by
  rw [List.append_assoc]
  exact parseStrChars_escBody s.toList rest

/-- Parser step: the literal null. -/
theorem parseVal_succ_null (fuel : Nat) (rest : List Char) :
    parseVal (fuel + 1) (nullChars ++ rest) = some (.null, rest) := by
  rw [parseVal.eq_def]; rfl

/-- Parser step: the literal true. -/
theorem parseVal_succ_true (fuel : Nat) (rest : List Char) :
    parseVal (fuel + 1) (trueChars ++ rest) = some (.bool true, rest) := by
  rw [parseVal.eq_def]; rfl

/-- Parser step: the literal false. -/
theorem parseVal_succ_false (fuel : Nat) (rest : List Char) :
    parseVal (fuel + 1) (falseChars ++ rest) = some (.bool false, rest) := by
  rw [parseVal.eq_def]; rfl

/-- Parser step: a string literal. -/
theorem parseVal_succ_str (fuel : Nat) (body : List Char) :
    parseVal (fuel + 1) ('"' :: body) =
      (parseStrChars body).map (fun p => (.str (String.mk p.1), p.2)) := by
  rw [parseVal.eq_def]; rfl

/-- Parser step: an object opening. -/
theorem parseVal_succ_obj (fuel : Nat) (tail : List Char) :
    parseVal (fuel + 1) ('\x7b' :: tail) =
      (if tail.take 1 = ['\x7d'] then some (.obj [], tail.drop 1)
       else (parseFields fuel tail).map (fun p => (.obj p.1, p.2))) := by
  rw [parseVal.eq_def]; rfl

/-- Parser step: any other head character routes to the number parser. -/
theorem parseVal_succ_default (fuel : Nat) (c : Char) (l : List Char)
    (h1 : c ≠ 'n') (h2 : c ≠ 't') (h3 : c ≠ 'f') (h4 : c ≠ '"') (h5 : c ≠ '\x7b') :
    parseVal (fuel + 1) (c :: l) = parseNumber (c :: l) := by
  have hA : ¬((c :: l).take 4 = nullChars) := by
    rw [show (c :: l).take 4 = c :: l.take 3 from rfl]
    intro e
    exact h1 (List.cons.inj e).1
  have hB : ¬((c :: l).take 4 = trueChars) := by
    rw [show (c :: l).take 4 = c :: l.take 3 from rfl]
    intro e
    exact h2 (List.cons.inj e).1
  have hC : ¬((c :: l).take 5 = falseChars) := by
    rw [show (c :: l).take 5 = c :: l.take 4 from rfl]
    intro e
    exact h3 (List.cons.inj e).1
  rw [parseVal.eq_def]
  show (if (c :: l).take 4 = nullChars then some (JSValue.null, (c :: l).drop 4)
    else if (c :: l).take 4 = trueChars then some (JSValue.bool true, (c :: l).drop 4)
    else if (c :: l).take 5 = falseChars then some (JSValue.bool false, (c :: l).drop 5)
    else if c = '"' then (parseStrChars l).map (fun p => (JSValue.str (String.mk p.1), p.2))
    else if c = '\x7b' then
      (if l.take 1 = ['\x7d'] then some (JSValue.obj [], l.drop 1)
       else (parseFields fuel l).map (fun p => (JSValue.obj p.1, p.2)))
    else parseNumber (c :: l)) = parseNumber (c :: l)
  rw [if_neg hA, if_neg hB, if_neg hC, if_neg h4, if_neg h5]

/-- Parser step: a property list opening with a key string literal. -/
theorem parseFields_succ (fuel : Nat) (body : List Char) :
    parseFields (fuel + 1) ('"' :: body) =
      (match parseStrChars body with
       | none => none
       | some (k, rest2) =>
         if rest2.take 1 = [':'] then
           match parseVal fuel (rest2.drop 1) with
           | none => none
           | some (v, rest4) =>
             if rest4.take 1 = [','] then
               match parseFields fuel (rest4.drop 1) with
               | none => none
               | some (fs, r) => some ((String.mk k, v) :: fs, r)
             else if rest4.take 1 = ['\x7d'] then some ([(String.mk k, v)], rest4.drop 1)
             else none
         else none) := by
  rw [parseFields.eq_def]; rfl

/-- Encoding equation: null. -/
theorem strValChars_null : strValChars .null = some nullChars := rfl

/-- Encoding equation: true. -/
theorem strValChars_true : strValChars (.bool true) = some trueChars := rfl

/-- Encoding equation: false. -/
theorem strValChars_false : strValChars (.bool false) = some falseChars := rfl

/-- Encoding equation: numbers. -/
theorem strValChars_num (n : Int) : strValChars (.num n) = some (intChars n) := by
  rw [strValChars.eq_def]

/-- Encoding equation: strings. -/
theorem strValChars_str (s : String) : strValChars (.str s) = some (strLitChars s) := by
  rw [strValChars.eq_def]

/-- Encoding equation: objects. -/
theorem strValChars_obj (fields : List (String × JSValue)) :
    strValChars (.obj fields) =
      some ('\x7b' :: (joinComma (fieldEntries fields) ++ ['\x7d'])) := by
  rw [strValChars.eq_def]

/-- An undefined-free value has a JSON encoding. -/
theorem strValChars_some (v : JSValue) (h : undefFree v = true) :
    ∃ sv, strValChars v = some sv := by
  cases v with
  | undefined => rw [undefFree.eq_def] at h; simp at h
  | null => exact ⟨_, strValChars_null⟩
  | bool b =>
    cases b with
    | false => exact ⟨_, strValChars_false⟩
    | true => exact ⟨_, strValChars_true⟩
  | num n => exact ⟨_, strValChars_num n⟩
  | str s => exact ⟨_, strValChars_str s⟩
  | obj fields => exact ⟨_, strValChars_obj fields⟩

/-- Entry equation: the empty property list. -/
theorem fieldEntries_nil : fieldEntries [] = [] := rfl

/-- Entry equation: a property whose value has an encoding contributes the
encoded key, a colon and the encoded value. -/
theorem fieldEntries_cons_some (k : String) (v : JSValue) (rest : List (String × JSValue))
    (sv : List Char) (h : strValChars v = some sv) :
    fieldEntries ((k, v) :: rest) = (strLitChars k ++ ':' :: sv) :: fieldEntries rest := by
  rw [fieldEntries.eq_def]
  show (match strValChars v with
    | none => fieldEntries rest
    | some sv => (strLitChars k ++ ':' :: sv) :: fieldEntries rest) = _
  rw [h]

/-- undefFree equation: objects. -/
theorem undefFree_obj (fields : List (String × JSValue)) :
    undefFree (.obj fields) = undefFreeFields fields := by
  rw [undefFree.eq_def]

/-- undefFreeFields equation: cons. -/
theorem undefFreeFields_cons (k : String) (v : JSValue) (rest : List (String × JSValue)) :
    undefFreeFields ((k, v) :: rest) = (undefFree v && undefFreeFields rest) := by
  rw [undefFreeFields.eq_def]

/-- On an undefined-free property list no entry is dropped. -/
theorem fieldEntries_length (fs : List (String × JSValue)) (h : undefFreeFields fs = true) :
    (fieldEntries fs).length = fs.length := by
  induction fs with
  | nil => rfl
  | cons f t ih =>
    obtain ⟨k, v⟩ := f
    rw [undefFreeFields_cons] at h
    simp only [Bool.and_eq_true] at h
    obtain ⟨sv, hsv⟩ := strValChars_some v h.1
    rw [fieldEntries_cons_some k v t sv hsv]
    simp [ih h.2]

/-- needVal equation: non-objects. -/
theorem needVal_atom (x : JSValue) (h : ∀ fields, x ≠ .obj fields) : needVal x = 1 := by
  rw [needVal.eq_def]
  cases x with
  | obj fields => exact absurd rfl (h fields)
  | undefined => rfl
  | null => rfl
  | bool b => rfl
  | num n => rfl
  | str s => rfl

/-- needVal equation: objects. -/
theorem needVal_obj (fields : List (String × JSValue)) :
    needVal (.obj fields) = needFields fields + 1 := by
  rw [needVal.eq_def]

/-- needFields equation: nil. -/
theorem needFields_nil : needFields [] = 1 := rfl

/-- needFields equation: cons. -/
theorem needFields_cons (k : String) (v : JSValue) (rest : List (String × JSValue)) :
    needFields ((k, v) :: rest) = needVal v + needFields rest + 1 := by
  rw [needFields.eq_def]

/-- joinComma equation: singleton. -/
theorem joinComma_single (e : List Char) : joinComma [e] = e := by
  rw [joinComma.eq_def]

/-- joinComma equation: two or more entries. -/
theorem joinComma_cons2 (e e2 : List Char) (es : List (List Char)) :
    joinComma (e :: e2 :: es) = e ++ ',' :: joinComma (e2 :: es) := by
  rw [joinComma.eq_def]

/-- take of one element of a cons. -/
theorem take_one_cons (c : Char) (l : List Char) : (c :: l).take 1 = [c] := rfl

/-- drop of one element of a cons. -/
theorem drop_one_cons (c : Char) (l : List Char) : (c :: l).drop 1 = l := rfl

/-- A digit-or-minus head character is none of the parser dispatch heads. -/
theorem digit_or_dash_ne (c : Char) (h : isDigitChar c = true ∨ c = '-') :
    c ≠ 'n' ∧ c ≠ 't' ∧ c ≠ 'f' ∧ c ≠ '"' ∧ c ≠ '\x7b' := by
  rcases h with h | h
  · refine ⟨?_, ?_, ?_, ?_, ?_⟩ <;> intro e <;> rw [e] at h <;> exact absurd h (by decide)
  · rw [h]
    exact ⟨by decide, by decide, by decide, by decide, by decide⟩

/-- A delimiter-opening continuation starts with no digit. -/
theorem takeWhile_nil_of_delimOk (rest : List Char) (h : delimOk rest = true) :
    rest.takeWhile isDigitChar = [] := by
  cases rest with
  | nil => rfl
  | cons c t =>
    have h2 : (c = ',' || c = '\x7d') = true := h
    simp only [Bool.or_eq_true, decide_eq_true_eq] at h2
    rcases h2 with h2 | h2 <;> rw [h2] <;> rfl

/-- Round-trip core, by strong induction on term size: with sufficient fuel
the parser inverts the JSON encoding of every undefined-free value before any
delimiter-opening continuation, and inverts the comma-joined encoding of a
nonempty undefined-free property list up to the object-closing brace. -/
theorem parse_inverts_encoding : ∀ N : Nat,
    (∀ x : JSValue, sizeOf x ≤ N → undefFree x = true →
      ∀ sv, strValChars x = some sv →
      ∀ fuel, needVal x ≤ fuel →
      ∀ rest, delimOk rest = true →
      parseVal fuel (sv ++ rest) = some (x, rest)) ∧
    (∀ fs : List (String × JSValue), sizeOf fs ≤ N → fs ≠ [] →
      undefFreeFields fs = true →
      ∀ fuel, needFields fs ≤ fuel →
      ∀ rest, parseFields fuel (joinComma (fieldEntries fs) ++ '\x7d' :: rest) =
        some (fs, rest)) := by
  intro N
  induction N with
  | zero =>
    constructor
    · intro x hx
      exfalso
      have h0 : 0 < sizeOf x := by cases x <;> simp
      omega
    · intro fs hfs hne
      exfalso
      cases fs with
      | nil => exact hne rfl
      | cons f t =>
        have h0 : 0 < sizeOf (f :: t) := by simp
        omega
  | succ N ih =>
    obtain ⟨ihV, ihF⟩ := ih
    constructor
    · intro x hx hu sv hsv fuel hf rest hr
      cases x with
      | undefined =>
        rw [undefFree.eq_def] at hu
        simp at hu
      | null =>
        rw [strValChars_null] at hsv
        obtain rfl : nullChars = sv := Option.some.inj hsv
        rw [needVal_atom _ (fun fields h => JSValue.noConfusion h)] at hf
        obtain ⟨f, rfl⟩ : ∃ f, fuel = f + 1 := ⟨fuel - 1, by omega⟩
        exact parseVal_succ_null f rest
      | bool b =>
        cases b with
        | true =>
          rw [strValChars_true] at hsv
          obtain rfl : trueChars = sv := Option.some.inj hsv
          rw [needVal_atom _ (fun fields h => JSValue.noConfusion h)] at hf
          obtain ⟨f, rfl⟩ : ∃ f, fuel = f + 1 := ⟨fuel - 1, by omega⟩
          exact parseVal_succ_true f rest
        | false =>
          rw [strValChars_false] at hsv
          obtain rfl : falseChars = sv := Option.some.inj hsv
          rw [needVal_atom _ (fun fields h => JSValue.noConfusion h)] at hf
          obtain ⟨f, rfl⟩ : ∃ f, fuel = f + 1 := ⟨fuel - 1, by omega⟩
          exact parseVal_succ_false f rest
      | num n =>
        rw [strValChars_num] at hsv
        obtain rfl : intChars n = sv := Option.some.inj hsv
        rw [needVal_atom _ (fun fields h => JSValue.noConfusion h)] at hf
        obtain ⟨f, rfl⟩ : ∃ f, fuel = f + 1 := ⟨fuel - 1, by omega⟩
        obtain ⟨c, t, hct, hcd⟩ := intChars_shape n
        obtain ⟨e1, e2, e3, e4, e5⟩ := digit_or_dash_ne c hcd
        rw [hct, show (c :: t) ++ rest = c :: (t ++ rest) from rfl,
          parseVal_succ_default f c (t ++ rest) e1 e2 e3 e4 e5,
          show c :: (t ++ rest) = (c :: t) ++ rest from rfl, ← hct]
        exact parseNumber_intChars n rest (takeWhile_nil_of_delimOk rest hr)
      | str s =>
        rw [strValChars_str] at hsv
        obtain rfl : strLitChars s = sv := Option.some.inj hsv
        rw [needVal_atom _ (fun fields h => JSValue.noConfusion h)] at hf
        obtain ⟨f, rfl⟩ : ∃ f, fuel = f + 1 := ⟨fuel - 1, by omega⟩
        rw [show strLitChars s ++ rest = '"' :: ((escBody s.toList ++ ['"']) ++ rest) from rfl,
          parseVal_succ_str, parseStrChars_strLit]
        show some (JSValue.str (String.mk s.toList), rest) = some (.str s, rest)
        rw [show String.mk s.toList = s from mk_data s]
      | obj fields =>
        rw [strValChars_obj] at hsv
        obtain rfl : '\x7b' :: (joinComma (fieldEntries fields) ++ ['\x7d']) = sv :=
          Option.some.inj hsv
        rw [undefFree_obj] at hu
        rw [needVal_obj] at hf
        obtain ⟨f, rfl⟩ : ∃ f, fuel = f + 1 := ⟨fuel - 1, by omega⟩
        rw [show ('\x7b' :: (joinComma (fieldEntries fields) ++ ['\x7d'])) ++ rest =
          '\x7b' :: (joinComma (fieldEntries fields) ++ ('\x7d' :: rest)) from by simp,
          parseVal_succ_obj]
        cases fields with
        | nil =>
          rw [fieldEntries_nil, show joinComma ([] : List (List Char)) = [] from rfl,
            show ([] : List Char) ++ '\x7d' :: rest = '\x7d' :: rest from rfl]
          rw [if_pos (take_one_cons '\x7d' rest), drop_one_cons]
        | cons f0 ft =>
          obtain ⟨k0, v0⟩ := f0
          have hu0 := hu
          rw [undefFreeFields_cons] at hu
          simp only [Bool.and_eq_true] at hu
          obtain ⟨sv0, hsv0⟩ := strValChars_some v0 hu.1
          have hfe := fieldEntries_cons_some k0 v0 ft sv0 hsv0
          have hhead : ∀ es : List (List Char),
              ∃ t, joinComma ((strLitChars k0 ++ ':' :: sv0) :: es) = '"' :: t := by
            intro es
            cases es with
            | nil => exact ⟨_, by rw [joinComma_single]; rfl⟩
            | cons e2 es2 => exact ⟨_, by rw [joinComma_cons2]; rfl⟩
          have hcond : ¬((joinComma (fieldEntries ((k0, v0) :: ft)) ++ '\x7d' :: rest).take 1
              = ['\x7d']) := by
            rw [hfe]
            obtain ⟨t, ht⟩ := hhead (fieldEntries ft)
            rw [ht, show ('"' :: t) ++ '\x7d' :: rest = '"' :: (t ++ '\x7d' :: rest) from rfl,
              take_one_cons]
            decide
          have hsize : sizeOf ((k0, v0) :: ft) ≤ N := by
            simp only [JSValue.obj.sizeOf_spec] at hx
            omega
          rw [if_neg hcond,
            ihF ((k0, v0) :: ft) hsize (by simp) hu0 f (by omega) rest]
          rfl
    · intro fs hfs hne hu fuel hf rest
      cases fs with
      | nil => exact absurd rfl hne
      | cons f0 ft =>
        obtain ⟨k, v⟩ := f0
        have hu0 := hu
        rw [undefFreeFields_cons] at hu
        simp only [Bool.and_eq_true] at hu
        obtain ⟨sv, hsv⟩ := strValChars_some v hu.1
        rw [needFields_cons] at hf
        obtain ⟨f, rfl⟩ : ∃ f, fuel = f + 1 := ⟨fuel - 1, by omega⟩
        have hsizev : sizeOf v ≤ N := by
          simp only [List.cons.sizeOf_spec, Prod.mk.sizeOf_spec] at hfs
          omega
        rw [fieldEntries_cons_some k v ft sv hsv]
        cases hfe : fieldEntries ft with
        | nil =>
          have hlen := fieldEntries_length ft hu.2
          rw [hfe] at hlen
          have hft : ft = [] := by
            cases ft with
            | nil => rfl
            | cons a b => simp at hlen
          subst hft
          rw [joinComma_single]
          rw [show (strLitChars k ++ ':' :: sv) ++ '\x7d' :: rest =
            '"' :: (escBody k.toList ++ ('"' :: (':' :: (sv ++ ('\x7d' :: rest))))) from by
            simp [strLitChars]]
          rw [parseFields_succ, parseStrChars_escBody]
          simp only [take_one_cons, drop_one_cons]
          rw [if_pos trivial]
          rw [ihV v hsizev hu.1 sv hsv f (by omega) ('\x7d' :: rest) rfl]
          simp only [take_one_cons, drop_one_cons]
          rw [if_neg (show ¬((['\x7d'] : List Char) = [',']) from by decide)]
          rw [if_pos trivial]
          rw [show String.mk (String.toList k) = k from mk_data k]
        | cons e2 es2 =>
          have hftne : ft ≠ [] := by
            intro hft
            rw [hft, fieldEntries_nil] at hfe
            exact List.noConfusion hfe
          have hsizeft : sizeOf ft ≤ N := by
            simp only [List.cons.sizeOf_spec, Prod.mk.sizeOf_spec] at hfs
            omega
          rw [joinComma_cons2]
          rw [show ((strLitChars k ++ ':' :: sv) ++ ',' :: joinComma (e2 :: es2)) ++
            '\x7d' :: rest =
            '"' :: (escBody k.toList ++ ('"' :: (':' :: (sv ++
              (',' :: (joinComma (e2 :: es2) ++ '\x7d' :: rest)))))) from by
            simp [strLitChars]]
          rw [parseFields_succ, parseStrChars_escBody]
          simp only [take_one_cons, drop_one_cons]
          rw [if_pos trivial]
          rw [ihV v hsizev hu.1 sv hsv f (by omega)
            (',' :: (joinComma (e2 :: es2) ++ '\x7d' :: rest)) rfl]
          simp only [take_one_cons, drop_one_cons]
          rw [if_pos trivial]
          rw [← hfe, ihF ft hsizeft hftne hu.2 f (by omega) rest]
          rw [show String.mk (String.toList k) = k from mk_data k]

/-- A string literal encoding has at least its two quotes. -/
theorem strLitChars_length (s : String) : 2 ≤ (strLitChars s).length := by
  simp only [strLitChars, List.length_cons, List.length_append, List.length_singleton]
  omega

/-- An integer encoding is nonempty. -/
theorem intChars_length_pos (n : Int) : 1 ≤ (intChars n).length := by
  obtain ⟨c, t, hct, _⟩ := intChars_shape n
  rw [hct]
  simp

/-- The fuel demanded by a value is bounded by the length of its encoding
(and by the joined entry length plus one for a nonempty property list). -/
theorem needVal_le_length : ∀ N : Nat,
    (∀ x : JSValue, sizeOf x ≤ N → undefFree x = true →
      ∀ sv, strValChars x = some sv → needVal x ≤ sv.length) ∧
    (∀ fs : List (String × JSValue), sizeOf fs ≤ N → fs ≠ [] → undefFreeFields fs = true →
      needFields fs ≤ (joinComma (fieldEntries fs)).length + 1) := by
  intro N
  induction N with
  | zero =>
    constructor
    · intro x hx
      exfalso
      have h0 : 0 < sizeOf x := by cases x <;> simp
      omega
    · intro fs hfs hne
      exfalso
      cases fs with
      | nil => exact hne rfl
      | cons f t =>
        have h0 : 0 < sizeOf (f :: t) := by simp
        omega
  | succ N ih =>
    obtain ⟨ihV, ihF⟩ := ih
    constructor
    · intro x hx hu sv hsv
      cases x with
      | undefined => rw [undefFree.eq_def] at hu; simp at hu
      | null =>
        rw [strValChars_null] at hsv
        obtain rfl : nullChars = sv := Option.some.inj hsv
        rw [needVal_atom _ (fun fields h => JSValue.noConfusion h)]
        decide
      | bool b =>
        cases b with
        | true =>
          rw [strValChars_true] at hsv
          obtain rfl : trueChars = sv := Option.some.inj hsv
          rw [needVal_atom _ (fun fields h => JSValue.noConfusion h)]
          decide
        | false =>
          rw [strValChars_false] at hsv
          obtain rfl : falseChars = sv := Option.some.inj hsv
          rw [needVal_atom _ (fun fields h => JSValue.noConfusion h)]
          decide
      | num n =>
        rw [strValChars_num] at hsv
        obtain rfl : intChars n = sv := Option.some.inj hsv
        rw [needVal_atom _ (fun fields h => JSValue.noConfusion h)]
        exact intChars_length_pos n
      | str s =>
        rw [strValChars_str] at hsv
        obtain rfl : strLitChars s = sv := Option.some.inj hsv
        rw [needVal_atom _ (fun fields h => JSValue.noConfusion h)]
        have := strLitChars_length s
        omega
      | obj fields =>
        rw [strValChars_obj] at hsv
        obtain rfl : '\x7b' :: (joinComma (fieldEntries fields) ++ ['\x7d']) = sv :=
          Option.some.inj hsv
        rw [undefFree_obj] at hu
        rw [needVal_obj]
        cases fields with
        | nil =>
          rw [fieldEntries_nil, needFields_nil]
          decide
        | cons f0 ft =>
          have hsize : sizeOf (f0 :: ft) ≤ N := by
            simp only [JSValue.obj.sizeOf_spec] at hx
            omega
          have hb := ihF (f0 :: ft) hsize (by simp) hu
          simp only [List.length_cons, List.length_append, List.length_singleton]
          omega
    · intro fs hfs hne hu
      cases fs with
      | nil => exact absurd rfl hne
      | cons f0 ft =>
        obtain ⟨k, v⟩ := f0
        rw [undefFreeFields_cons] at hu
        simp only [Bool.and_eq_true] at hu
        obtain ⟨sv, hsv⟩ := strValChars_some v hu.1
        have hsizev : sizeOf v ≤ N := by
          simp only [List.cons.sizeOf_spec, Prod.mk.sizeOf_spec] at hfs
          omega
        have hbv := ihV v hsizev hu.1 sv hsv
        rw [needFields_cons, fieldEntries_cons_some k v ft sv hsv]
        have hkl := strLitChars_length k
        cases hfe : fieldEntries ft with
        | nil =>
          have hlen := fieldEntries_length ft hu.2
          rw [hfe] at hlen
          have hft : ft = [] := by
            cases ft with
            | nil => rfl
            | cons a b => simp at hlen
          subst hft
          rw [joinComma_single, needFields_nil]
          simp only [List.length_append, List.length_cons]
          omega
        | cons e2 es2 =>
          have hftne : ft ≠ [] := by
            intro hft
            rw [hft, fieldEntries_nil] at hfe
            exact List.noConfusion hfe
          have hsizeft : sizeOf ft ≤ N := by
            simp only [List.cons.sizeOf_spec, Prod.mk.sizeOf_spec] at hfs
            omega
          have hbf := ihF ft hsizeft hftne hu.2
          rw [hfe] at hbf
          rw [joinComma_cons2]
          simp only [List.length_append, List.length_cons]
          omega

/-- JSON.parse inverts JSON.stringify on every undefined-free value. -/
theorem jsonParse_jsonStringify (x : JSValue) (h : undefFree x = true) :
    ∃ s, jsonStringify x = some s ∧ jsonParse s = some x := by
  obtain ⟨sv, hsv⟩ := strValChars_some x h
  refine ⟨String.mk sv, by simp [jsonStringify, hsv], ?_⟩
  have hb : needVal x ≤ sv.length := (needVal_le_length (sizeOf x)).1 x le_rfl h sv hsv
  have hp := (parse_inverts_encoding (sizeOf x)).1 x le_rfl h sv hsv (sv.length + 1)
    (by omega) [] rfl
  rw [List.append_nil] at hp
  simp only [jsonParse]
  rw [show (String.mk sv).length = sv.length from rfl,
    show (String.mk sv).toList = sv from rfl, hp]

/-- Claim C5 (amended): prepareSuccessResponse returns the response unchanged
when the envelope flag useBody is unset, and returns the 200 envelope whose
body is JSON.stringify of the response when it is set; for every response
value containing no undefined the body parses back from JSON to a value equal
to the input. (JSON.stringify drops undefined-valued properties, so the round
trip is restricted to undefined-free values; see the counterexample.) -/
theorem prepareSuccessResponse_spec :
    (∀ (st : SDKState) (x : JSValue), st.useBody = false →
      prepareSuccessResponse st x = .direct x) ∧
    (∀ (st : SDKState) (x : JSValue), st.useBody = true →
      prepareSuccessResponse st x = .envelope 200 (jsonStringify x)) ∧
    (∀ x : JSValue, undefFree x = true →
      ∃ s, jsonStringify x = some s ∧ jsonParse s = some x) := by
  refine ⟨?_, ?_, jsonParse_jsonStringify⟩
  · intro st x h
    simp [prepareSuccessResponse, h]
  · intro st x h
    simp [prepareSuccessResponse, h]

/-- Witness for prepareSuccessResponse at concrete states and a concrete
undefined-free response value. -/
theorem prepareSuccessResponse_spec_witness :
    prepareSuccessResponse initialState (.num 3) = .direct (.num 3) ∧
    prepareSuccessResponse { initialState with useBody := true } (.num 3) =
      .envelope 200 (jsonStringify (.num 3)) ∧
    ∃ s, jsonStringify (.obj [("a", .num 1)]) = some s ∧
      jsonParse s = some (.obj [("a", .num 1)]) :=
  ⟨prepareSuccessResponse_spec.1 initialState (.num 3) rfl,
   prepareSuccessResponse_spec.2.1 { initialState with useBody := true } (.num 3) rfl,
   prepareSuccessResponse_spec.2.2 (.obj [("a", .num 1)]) rfl⟩

/-- Claim C5 counterexample: with the envelope flag set, the serialized body
of a list-action-like response whose updatedSubject property is undefined
parses back to an object WITHOUT that property — JSON.stringify drops
undefined-valued properties — so the parsed value is not equal to the
original response and the round trip stated by the claim fails. -/
theorem prepareSuccessResponse_roundtrip_counterexample :
    prepareSuccessResponse { initialState with useBody := true }
        (.obj [("responseType", .str "listAction"), ("isError", .bool false),
          ("updatedSubject", .undefined), ("successMessage", .str "ok")]) =
      .envelope 200
        (some "\x7b\"responseType\":\"listAction\",\"isError\":false,\"successMessage\":\"ok\"\x7d") ∧
    jsonParse
        "\x7b\"responseType\":\"listAction\",\"isError\":false,\"successMessage\":\"ok\"\x7d" =
      some (.obj [("responseType", .str "listAction"), ("isError", .bool false),
        ("successMessage", .str "ok")]) ∧
    JSValue.obj [("responseType", .str "listAction"), ("isError", .bool false),
        ("successMessage", .str "ok")] ≠
      JSValue.obj [("responseType", .str "listAction"), ("isError", .bool false),
        ("updatedSubject", .undefined), ("successMessage", .str "ok")] :=
  ⟨rfl, rfl, by simp⟩

/-- Claim C6: prepareErrorResponse is total — defined for every message
string with no failure mode: with useBody unset it returns the direct error
object whose responseType property is "error" and whose errorMessage property
is the supplied message (the source object literal writes errorMessage first;
JavaScript object values are unordered, and both property reads are proved);
with useBody set it returns the 400 envelope whose body is the JSON
serialization of the one-property errorMessage object, which always exists. -/
theorem prepareErrorResponse_spec :
    ∀ (st : SDKState) (m : String),
      (st.useBody = false →
        prepareErrorResponse st m =
          .direct (.obj [("errorMessage", .str m), ("responseType", .str "error")]) ∧
        jsIndex (.obj [("errorMessage", .str m), ("responseType", .str "error")])
          "responseType" = .str "error" ∧
        jsIndex (.obj [("errorMessage", .str m), ("responseType", .str "error")])
          "errorMessage" = .str m) ∧
      (st.useBody = true →
        prepareErrorResponse st m =
          .envelope 400 (jsonStringify (.obj [("errorMessage", .str m)])) ∧
        (jsonStringify (.obj [("errorMessage", .str m)])).isSome = true) := by
  intro st m
  constructor
  · intro h
    exact ⟨by simp [prepareErrorResponse, h], rfl, rfl⟩
  · intro h
    refine ⟨by simp [prepareErrorResponse, h], ?_⟩
    rw [jsonStringify, strValChars_obj]
    rfl

/-- Witness for prepareErrorResponse at a concrete message in both states. -/
theorem prepareErrorResponse_spec_witness :
    prepareErrorResponse initialState "boom" =
      .direct (.obj [("errorMessage", .str "boom"), ("responseType", .str "error")]) ∧
    prepareErrorResponse { initialState with useBody := true } "boom" =
      .envelope 400 (jsonStringify (.obj [("errorMessage", .str "boom")])) :=
  ⟨((prepareErrorResponse_spec initialState "boom").1 rfl).1,
   ((prepareErrorResponse_spec { initialState with useBody := true } "boom").2 rfl).1⟩

end Halix
